import Mathlib

/-!
Verification of the instance-lifecycle / port-allocation core of the
`ctf-webserver-manager` repository, shallowly embedded in Lean 4.

The embedding mirrors the TypeScript sources:
  * `apps/agent/src/ports.ts`      → port scanning (`findAvailablePort`)
  * the agent hash module          → directory content hashing (`hashDirectory`)
  * the agent entrypoint handlers  → lifecycle state machine, MySQL secrets
  * `apps/agent/src/types.ts`      → compose-descriptor rendering values

Effectful pieces (bind probes, `docker compose` exit codes, filesystem
existence checks) are modelled as oracle inputs supplied per operation;
the persistent SQLite store is modelled as an explicit state value.
-/

namespace CtfAgent

/-- Inclusive port range, from `apps/agent/src/types.ts` (`PortRange`);
the TypeScript field `end` is rendered as `stop`. -/
structure PortRange where
  start : Nat
  stop : Nat
deriving DecidableEq, Repr

/-- Ascending list of the ports of one range (the inner `for` loop of
`findAvailablePort` in `apps/agent/src/ports.ts`). -/
def portsOfRange (r : PortRange) : List Nat :=
  List.range' r.start (r.stop + 1 - r.start)

/-- All candidate ports in scan order: ranges in configured order, ports
ascending within each range. -/
def scanPorts (ranges : List PortRange) : List Nat :=
  ranges.flatMap portsOfRange

/-- Shallow embedding of `findAvailablePort(ranges, reserved)` from
`apps/agent/src/ports.ts`.  The OS bind-and-release check
(`isPortAvailable`) is the oracle `probe`; the `reserved` set is a list
(the ports of running instances).  `none` models the thrown
ports-exhausted error. -/
def findAvailablePort (probe : Nat → Bool) (ranges : List PortRange)
    (reserved : List Nat) : Option Nat :=
  (scanPorts ranges).find? (fun port => !reserved.contains port && probe port)

/-- A port returned by `findAvailablePort` is never in the reserved
set and always passes the probe. -/
theorem findAvailablePort_pred {probe : Nat → Bool} {ranges : List PortRange}
    {reserved : List Nat} {p : Nat}
    (h : findAvailablePort probe ranges reserved = some p) :
    reserved.contains p = false ∧ probe p = true := by
  have hpred := List.find?_some h
  simp only [Bool.and_eq_true, Bool.not_eq_true'] at hpred
  exact hpred

/-- Membership in the expanded ports of a range is exactly the inclusive
interval check. -/
theorem mem_portsOfRange {p : Nat} {r : PortRange} :
    p ∈ portsOfRange r ↔ r.start ≤ p ∧ p ≤ r.stop := by
  rw [portsOfRange, List.mem_range'_1]
  omega

/-- If `find?` succeeds, the list splits at the found element and every
earlier element fails the predicate. -/
theorem find?_eq_some_split {α : Type} {p : α → Bool} {l : List α} {a : α}
    (h : l.find? p = some a) :
    ∃ l₁ l₂, l = l₁ ++ a :: l₂ ∧ (∀ x ∈ l₁, p x = false) ∧ p a = true := by
  induction l with
  | nil => simp [List.find?] at h
  | cons b t ih =>
    rcases hb : p b with _ | _
    · rw [List.find?_cons_of_neg _ (by simp [hb])] at h
      obtain ⟨l₁, l₂, hsplit, hfail, hpa⟩ := ih h
      refine ⟨b :: l₁, l₂, by simp [hsplit], ?_, hpa⟩
      intro x hx
      rcases List.mem_cons.mp hx with rfl | hx
      · exact hb
      · exact hfail x hx
    · rw [List.find?_cons_of_pos _ hb] at h
      obtain rfl := Option.some.inj h
      exact ⟨[], t, rfl, by simp, hb⟩

/-- C2.  `findAvailablePort` contract: a returned port is never reserved,
always passes the probe, lies inside some configured range, and is the
first such port in scan order (ranges in configured order, ports
ascending); the call fails (`none`, the ports-exhausted error) if and
only if every port of every range is reserved or fails the probe.  The
embedding is a pure function, so the call itself mutates no state. -/
theorem findAvailablePort_spec (probe : Nat → Bool) (ranges : List PortRange)
    (reserved : List Nat) :
    (∀ p, findAvailablePort probe ranges reserved = some p →
      reserved.contains p = false ∧ probe p = true ∧
      (∃ r ∈ ranges, r.start ≤ p ∧ p ≤ r.stop) ∧
      (∃ l₁ l₂, scanPorts ranges = l₁ ++ p :: l₂ ∧
        ∀ q ∈ l₁, reserved.contains q = true ∨ probe q = false)) ∧
    (findAvailablePort probe ranges reserved = none ↔
      ∀ r ∈ ranges, ∀ p, r.start ≤ p → p ≤ r.stop →
        reserved.contains p = true ∨ probe p = false) := by
  constructor
  · intro p hfind
    have hpred := List.find?_some hfind
    have hmem := List.mem_of_find?_eq_some hfind
    simp only [Bool.and_eq_true, Bool.not_eq_true'] at hpred
    refine ⟨hpred.1, hpred.2, ?_, ?_⟩
    · rw [scanPorts, List.mem_flatMap] at hmem
      obtain ⟨r, hr, hpr⟩ := hmem
      exact ⟨r, hr, mem_portsOfRange.mp hpr⟩
    · obtain ⟨l₁, l₂, hsplit, hfail, _⟩ := find?_eq_some_split hfind
      refine ⟨l₁, l₂, hsplit, ?_⟩
      intro q hq
      have hq' := hfail q hq
      rcases hc : reserved.contains q with _ | _
      · rw [hc] at hq'
        simp at hq'
        exact Or.inr hq'
      · exact Or.inl rfl
  · rw [findAvailablePort, List.find?_eq_none]
    constructor
    · intro hall r hr p hlo hhi
      have hmem : p ∈ scanPorts ranges := by
        rw [scanPorts, List.mem_flatMap]
        exact ⟨r, hr, mem_portsOfRange.mpr ⟨hlo, hhi⟩⟩
      have hp' := hall p hmem
      rcases hc : reserved.contains p with _ | _
      · rw [hc] at hp'
        simp at hp'
        exact Or.inr hp'
      · exact Or.inl rfl
    · intro hall p hmem
      rw [scanPorts, List.mem_flatMap] at hmem
      obtain ⟨r, hr, hpr⟩ := hmem
      obtain ⟨hlo, hhi⟩ := mem_portsOfRange.mp hpr
      rcases hall r hr p hlo hhi with hres | hpr
      · intro hcontra
        rw [hres] at hcontra
        simp at hcontra
      · simp [hpr]

/-- Witness for C2: on ranges `[[5,7]]` with port 5 reserved and an
always-available probe, the allocator returns 6, which is unreserved and
in range. -/
theorem findAvailablePort_spec_witness :
    ([5] : List Nat).contains 6 = false ∧ (fun _ : Nat => true) 6 = true := by
  have h := (findAvailablePort_spec (fun _ => true) [⟨5, 7⟩] [5]).1 6 (by rfl)
  exact ⟨h.1, h.2.1⟩

/-- Byte strings: file contents, and the UTF-8 bytes of relative paths,
as fed to the digest by the agent hash module. -/
abbrev Bytes := List Nat

/-- One file of a directory tree as enumerated by `listFiles`: relative
path plus content. -/
structure FileEntry where
  path : Bytes
  content : Bytes
deriving DecidableEq

/-- Byte stream one file contributes to the digest:
`hash.update(relPath); hash.update("\0"); hash.update(content)`. -/
def serializeEntry (f : FileEntry) : Bytes :=
  f.path ++ 0 :: f.content

/-- Lexicographic path comparison, modelling the default string
comparison of `files.sort()` in `hashDirectory`. -/
def pathLe : Bytes → Bytes → Bool
  | [], _ => true
  | _ :: _, [] => false
  | a :: as, b :: bs =>
    if a < b then true else if b < a then false else pathLe as bs

theorem pathLe_head {a b : Nat} {as bs : Bytes}
    (h : pathLe (a :: as) (b :: bs) = true) : a ≤ b := by
  by_contra hba
  have hlt : b < a := Nat.not_le.mp hba
  simp [pathLe, hlt, Nat.lt_asymm hlt] at h

theorem pathLe_total : ∀ a b, pathLe a b = true ∨ pathLe b a = true
  | [], _ => Or.inl rfl
  | _ :: _, [] => Or.inr rfl
  | a :: as, b :: bs => by
    rcases Nat.lt_trichotomy a b with h | h | h
    · left
      simp [pathLe, h]
    · subst h
      simpa [pathLe, Nat.lt_irrefl] using pathLe_total as bs
    · right
      simp [pathLe, h]

theorem pathLe_trans : ∀ a b c, pathLe a b = true → pathLe b c = true →
    pathLe a c = true
  | [], _, _, _, _ => rfl
  | _ :: _, [], _, h, _ => by simp [pathLe] at h
  | _ :: _, _ :: _, [], _, h => by simp [pathLe] at h
  | a :: as, b :: bs, c :: cs, h₁, h₂ => by
    have hab := pathLe_head h₁
    have hbc := pathLe_head h₂
    by_cases hac : a < c
    · simp [pathLe, hac]
    · have ha : a = b := by omega
      have hb : b = c := by omega
      subst ha
      subst hb
      simp only [pathLe, Nat.lt_irrefl, if_false] at h₁ h₂ ⊢
      exact pathLe_trans as bs cs h₁ h₂

theorem pathLe_antisymm : ∀ a b, pathLe a b = true → pathLe b a = true →
    a = b
  | [], [], _, _ => rfl
  | _ :: _, [], h, _ => by simp [pathLe] at h
  | [], _ :: _, _, h => by simp [pathLe] at h
  | a :: as, b :: bs, h₁, h₂ => by
    have hab := pathLe_head h₁
    have hba := pathLe_head h₂
    have hh : a = b := Nat.le_antisymm hab hba
    subst hh
    simp only [pathLe, Nat.lt_irrefl, if_false] at h₁ h₂
    rw [pathLe_antisymm as bs h₁ h₂]

/-- Nonstrict order on files used by the sort: compare paths. -/
def fileLe (a b : FileEntry) : Prop := pathLe a.path b.path = true

instance : DecidableRel fileLe := fun _ _ => inferInstanceAs (Decidable (_ = true))

instance : IsTotal FileEntry fileLe := ⟨fun a b => pathLe_total a.path b.path⟩

instance : IsTrans FileEntry fileLe :=
  ⟨fun a b c => pathLe_trans a.path b.path c.path⟩

/-- Strict version of `fileLe`, holding between files with distinct
paths; used to show the sorted order of a duplicate-free tree is
unique. -/
def fileLt (a b : FileEntry) : Prop := fileLe a b ∧ a.path ≠ b.path

instance : IsAntisymm FileEntry fileLt :=
  ⟨fun _ _ h₁ h₂ => absurd (pathLe_antisymm _ _ h₁.1 h₂.1) h₁.2⟩

/-- Sorting of the enumerated files (`files.sort()` before hashing). -/
def sortFiles (files : List FileEntry) : List FileEntry :=
  List.insertionSort fileLe files

/-- Concatenated byte stream fed to the digest by `hashDirectory`. -/
def hashStream (files : List FileEntry) : Bytes :=
  ((sortFiles files).map serializeEntry).flatten

/-- Shallow embedding of `hashDirectory`: SHA-256 hex digesting is
abstracted as a digest function `H` over the byte stream of the
path-sorted files; the `sha256:` prefix is kept verbatim. -/
def hashDirectory (H : Bytes → String) (files : List FileEntry) : String :=
  "sha256:" ++ H (hashStream files)

theorem sortFiles_perm (files : List FileEntry) : (sortFiles files).Perm files :=
  List.perm_insertionSort _ _

theorem sortFiles_sorted (files : List FileEntry) :
    List.Sorted fileLe (sortFiles files) :=
  List.sorted_insertionSort _ _

theorem sorted_fileLt_of_nodup {l : List FileEntry}
    (hs : List.Sorted fileLe l) (hnd : (l.map FileEntry.path).Nodup) :
    List.Sorted fileLt l := by
  have hne : List.Pairwise (fun a b : FileEntry => a.path ≠ b.path) l :=
    List.pairwise_map.mp hnd
  exact hs.and hne

theorem sortFiles_sorted_lt {l : List FileEntry}
    (hnd : (l.map FileEntry.path).Nodup) :
    List.Sorted fileLt (sortFiles l) := by
  refine sorted_fileLt_of_nodup (sortFiles_sorted l) ?_
  exact (((sortFiles_perm l).map FileEntry.path).nodup_iff).mpr hnd

/-- Two trees with the same files (in any enumeration order) and
duplicate-free paths sort identically. -/
theorem sortFiles_eq_of_perm {f₁ f₂ : List FileEntry} (h : f₁.Perm f₂)
    (hnd : (f₁.map FileEntry.path).Nodup) : sortFiles f₁ = sortFiles f₂ := by
  have hnd₂ : (f₂.map FileEntry.path).Nodup :=
    ((h.map FileEntry.path).nodup_iff).mp hnd
  exact List.eq_of_perm_of_sorted
    ((sortFiles_perm f₁).trans (h.trans (sortFiles_perm f₂).symm))
    (sortFiles_sorted_lt hnd) (sortFiles_sorted_lt hnd₂)

/-- Length of the digest stream: the sum, over all files in any order,
of path length + 1 (the NUL separator) + content length. -/
theorem hashStream_length (files : List FileEntry) :
    (hashStream files).length =
      (files.map (fun f => f.path.length + 1 + f.content.length)).sum := by
  rw [hashStream, List.length_flatten, List.map_map]
  have hcongr : (sortFiles files).map (List.length ∘ serializeEntry) =
      (sortFiles files).map (fun f => f.path.length + 1 + f.content.length) := by
    refine List.map_congr_left ?_
    intro f _
    simp [serializeEntry]
    omega
  rw [hcongr]
  exact ((sortFiles_perm files).map _).sum_eq

/-- A concatenation of blocks determines the blocks once the block
lengths are fixed. -/
theorem flatten_inj_of_length_eq : ∀ {L₁ L₂ : List Bytes},
    L₁.map List.length = L₂.map List.length → L₁.flatten = L₂.flatten →
    L₁ = L₂
  | [], [], _, _ => rfl
  | [], _ :: _, h, _ => by simp at h
  | _ :: _, [], h, _ => by simp at h
  | a :: L₁, b :: L₂, h, hf => by
    simp only [List.map_cons, List.cons.injEq] at h
    simp only [List.flatten_cons] at hf
    obtain ⟨hab, hLL⟩ := List.append_inj hf h.1
    rw [hab, flatten_inj_of_length_eq h.2 hLL]

theorem string_append_left_cancel {s a b : String} (h : s ++ a = s ++ b) :
    a = b := by
  have hd := congrArg String.data h
  rw [String.data_append, String.data_append] at hd
  exact String.ext (List.append_cancel_left hd)

/-- Hashing is invariant under the enumeration order of a
duplicate-free file tree. -/
theorem hashDirectory_order_independent (H : Bytes → String)
    {f₁ f₂ : List FileEntry} (hnd : (f₁.map FileEntry.path).Nodup)
    (h : f₁.Perm f₂) : hashDirectory H f₁ = hashDirectory H f₂ := by
  rw [hashDirectory, hashDirectory, hashStream, hashStream,
    sortFiles_eq_of_perm h hnd]

/-- Changing the content of one file (same length, different bytes, as
for a single changed byte) changes the hash, for any injective digest. -/
theorem hashDirectory_content_sensitive (H : Bytes → String)
    (hinj : Function.Injective H) (pre post : List FileEntry)
    (e₁ e₂ : FileEntry) (hp : e₁.path = e₂.path)
    (hlen : e₁.content.length = e₂.content.length)
    (hcon : e₁.content ≠ e₂.content)
    (hnd : ((pre ++ e₁ :: post).map FileEntry.path).Nodup) :
    hashDirectory H (pre ++ e₁ :: post) ≠ hashDirectory H (pre ++ e₂ :: post) := by
  intro heq
  set f₁ := pre ++ e₁ :: post with hf₁
  set f₂ := pre ++ e₂ :: post with hf₂
  set g : FileEntry → FileEntry := fun x => if x.path = e₁.path then e₂ else x
    with hg
  have he₁f₁ : e₁ ∈ f₁ := List.mem_append.mpr (Or.inr (List.mem_cons_self _ _))
  have hmap : f₁.map FileEntry.path =
      pre.map FileEntry.path ++ e₁.path :: post.map FileEntry.path := by
    simp [hf₁]
  have hnd' := hmap ▸ hnd
  have hpre : ∀ x ∈ pre, x.path ≠ e₁.path := by
    intro x hx hxe
    have hxm : e₁.path ∈ pre.map FileEntry.path :=
      hxe ▸ List.mem_map_of_mem _ hx
    exact (List.nodup_append.mp hnd').2.2 hxm (List.mem_cons_self _ _)
  have hpost : ∀ x ∈ post, x.path ≠ e₁.path := by
    intro x hx hxe
    have hxm : e₁.path ∈ post.map FileEntry.path :=
      hxe ▸ List.mem_map_of_mem _ hx
    exact (List.nodup_cons.mp (List.nodup_append.mp hnd').2.1).1 hxm
  have hpath_g : ∀ x, (g x).path = x.path := by
    intro x
    by_cases hx : x.path = e₁.path
    · simp [hg, hx, ← hp]
    · simp [hg, hx]
  have hGf : f₁.map g = f₂ := by
    have h1 : pre.map g = pre := by
      have : pre.map g = pre.map id :=
        List.map_congr_left fun x hx => by simp [hg, hpre x hx]
      simpa using this
    have h2 : post.map g = post := by
      have : post.map g = post.map id :=
        List.map_congr_left fun x hx => by simp [hg, hpost x hx]
      simpa using this
    simp [hf₁, hf₂, h1, h2, hg]
  have hnd₂ : (f₂.map FileEntry.path).Nodup := by
    have hmap₂ : f₂.map FileEntry.path =
        pre.map FileEntry.path ++ e₁.path :: post.map FileEntry.path := by
      simp [hf₂, ← hp]
    rw [hmap₂]
    exact hnd'
  have hsort : sortFiles f₂ = (sortFiles f₁).map g := by
    refine List.eq_of_perm_of_sorted (r := fileLt) ?_ (sortFiles_sorted_lt hnd₂) ?_
    · refine (sortFiles_perm f₂).trans ?_
      rw [← hGf]
      exact ((sortFiles_perm f₁).map g).symm
    · have hlt := sortFiles_sorted_lt hnd
      refine List.pairwise_map.mpr (hlt.imp ?_)
      intro a b hab
      exact ⟨by
        show pathLe (g a).path (g b).path = true
        rw [hpath_g a, hpath_g b]
        exact hab.1, by
        rw [hpath_g a, hpath_g b]
        exact hab.2⟩
  have hstream : hashStream f₁ = hashStream f₂ :=
    hinj (string_append_left_cancel heq)
  rw [hashStream, hashStream, hsort, List.map_map] at hstream
  have hlens : ((sortFiles f₁).map serializeEntry).map List.length =
      ((sortFiles f₁).map (serializeEntry ∘ g)).map List.length := by
    rw [List.map_map, List.map_map]
    refine List.map_congr_left ?_
    intro x hx
    by_cases hxe : x.path = e₁.path
    · have hxf : x ∈ f₁ := (sortFiles_perm f₁).mem_iff.mp hx
      have hxx : x = e₁ := List.inj_on_of_nodup_map hnd hxf he₁f₁ hxe
      subst hxx
      simp [Function.comp, hg, serializeEntry, ← hp, hlen]
    · simp [Function.comp, hg, hxe]
  have hblocks := flatten_inj_of_length_eq hlens hstream
  have hser := (List.map_eq_map_iff.mp hblocks) e₁
    ((sortFiles_perm f₁).mem_iff.mpr he₁f₁)
  simp only [Function.comp, hg, if_pos rfl] at hser
  rw [serializeEntry, serializeEntry, ← hp] at hser
  have := List.append_cancel_left hser
  exact hcon (List.cons.inj this).2

/-- Adding a file (or, read with the trees swapped, removing one)
changes the hash, for any injective digest: the digest stream strictly
grows. -/
theorem hashDirectory_add_sensitive (H : Bytes → String)
    (hinj : Function.Injective H) (f₁ f₂ : List FileEntry) (e : FileEntry)
    (h : f₂.Perm (e :: f₁)) : hashDirectory H f₂ ≠ hashDirectory H f₁ := by
  intro heq
  have hs : hashStream f₂ = hashStream f₁ :=
    hinj (string_append_left_cancel heq)
  have hl := congrArg List.length hs
  rw [hashStream_length, hashStream_length] at hl
  have hsum := (h.map (fun f => f.path.length + 1 + f.content.length)).sum_eq
  simp only [List.map_cons, List.sum_cons] at hsum
  omega

/-- C5.  Content-hash determinism and sensitivity, with SHA-256 hex
digesting idealised as an arbitrary injective digest `H` and a directory
tree as a duplicate-free list of (path, content) entries: (1) the hash
depends only on the set of entries — any two enumeration orders hash
identically, because the files are sorted by path before hashing; (2)
changing the content of a file in place (in particular any single byte)
changes the hash; (3) adding a file (or removing one: swap the trees)
changes the hash. -/
theorem hashDirectory_spec (H : Bytes → String)
    (hinj : Function.Injective H) :
    (∀ f₁ f₂ : List FileEntry, (f₁.map FileEntry.path).Nodup → f₁.Perm f₂ →
      hashDirectory H f₁ = hashDirectory H f₂) ∧
    (∀ (pre post : List FileEntry) (e₁ e₂ : FileEntry), e₁.path = e₂.path →
      e₁.content.length = e₂.content.length → e₁.content ≠ e₂.content →
      ((pre ++ e₁ :: post).map FileEntry.path).Nodup →
      hashDirectory H (pre ++ e₁ :: post) ≠ hashDirectory H (pre ++ e₂ :: post)) ∧
    (∀ (f₁ f₂ : List FileEntry) (e : FileEntry), f₂.Perm (e :: f₁) →
      hashDirectory H f₂ ≠ hashDirectory H f₁) :=
  ⟨fun _ _ hnd h => hashDirectory_order_independent H hnd h,
   fun pre post e₁ e₂ hp hlen hcon hnd =>
     hashDirectory_content_sensitive H hinj pre post e₁ e₂ hp hlen hcon hnd,
   fun f₁ f₂ e h => hashDirectory_add_sensitive H hinj f₁ f₂ e h⟩

/-- Unary marker encoding of a byte list into characters; the basis of
a concrete injective stand-in digest. -/
def unaryEnc : Bytes → List Char
  | [] => []
  | n :: l => List.replicate n 'a' ++ 'b' :: unaryEnc l

theorem unary_block_inj : ∀ (n m : Nat) (t₁ t₂ : List Char),
    List.replicate n 'a' ++ 'b' :: t₁ = List.replicate m 'a' ++ 'b' :: t₂ →
    n = m ∧ t₁ = t₂
  | 0, 0, _, _, h => by
    simp only [List.replicate, List.nil_append, List.cons.injEq] at h
    exact ⟨rfl, h.2⟩
  | 0, _ + 1, _, _, h => by
    simp [List.replicate_succ] at h
  | _ + 1, 0, _, _, h => by
    simp [List.replicate_succ] at h
  | n + 1, m + 1, t₁, t₂, h => by
    simp only [List.replicate_succ, List.cons_append, List.cons.injEq] at h
    obtain ⟨hnm, ht⟩ := unary_block_inj n m t₁ t₂ h.2
    exact ⟨by omega, ht⟩

theorem unaryEnc_inj : ∀ {l₁ l₂ : Bytes}, unaryEnc l₁ = unaryEnc l₂ → l₁ = l₂
  | [], [], _ => rfl
  | [], n :: l, h => by
    have := congrArg List.length h
    simp [unaryEnc] at this
    omega
  | n :: l, [], h => by
    have := congrArg List.length h
    simp [unaryEnc] at this
  | n :: l₁, m :: l₂, h => by
    rw [unaryEnc, unaryEnc] at h
    obtain ⟨hnm, ht⟩ := unary_block_inj n m _ _ h
    rw [hnm, unaryEnc_inj ht]

/-- Concrete injective digest function. -/
def unaryDigest (l : Bytes) : String := String.mk (unaryEnc l)

theorem unaryDigest_inj : Function.Injective unaryDigest := fun _ _ h =>
  unaryEnc_inj (congrArg String.data h)

/-- Witness for C5: the two-file tree `a ↦ x, b ↦ y` hashes identically
under both enumeration orders. -/
theorem hashDirectory_spec_witness :
    hashDirectory unaryDigest [⟨[97], [120]⟩, ⟨[98], [121]⟩] =
      hashDirectory unaryDigest [⟨[98], [121]⟩, ⟨[97], [120]⟩] :=
  (hashDirectory_spec unaryDigest unaryDigest_inj).1 _ _ (by decide)
    (List.Perm.swap _ _ _)

/-- MySQL-related columns of the singleton `settings` row, as consumed
by the secrets logic of the agent entrypoint. -/
structure Settings where
  mysql_root_password : String
  mysql_database : String
  mysql_user : String
  mysql_password : String
deriving DecidableEq

/-- Fully resolved per-instance MySQL secrets (`MysqlSecrets` in the
agent entrypoint). -/
structure MysqlSecrets where
  mysql_root_password : String
  mysql_database : String
  mysql_user : String
  mysql_password : String
deriving DecidableEq

/-- On-disk `secrets.json` content, where any subset of the four fields
may be present (the source reads it at type `Partial<MysqlSecrets>`). -/
structure MysqlSecretsFile where
  mysql_root_password : Option String
  mysql_database : Option String
  mysql_user : Option String
  mysql_password : Option String
deriving DecidableEq

/-- File content written back by `writeMysqlSecrets` for a resolved
secrets record. -/
def MysqlSecrets.toFile (s : MysqlSecrets) : MysqlSecretsFile :=
  ⟨some s.mysql_root_password, some s.mysql_database, some s.mysql_user,
    some s.mysql_password⟩

/-- Shallow embedding of `getMysqlSettings(settings)`. -/
def getMysqlSettings (settings : Settings) : MysqlSecrets :=
  { mysql_root_password := settings.mysql_root_password
    mysql_database := settings.mysql_database
    mysql_user := settings.mysql_user
    mysql_password :=
      if settings.mysql_user = "root" then settings.mysql_root_password
      else settings.mysql_password }

/-- Pure resolution core of `loadMysqlSecrets(workdir, settings)`:
`fromFile` is the parsed `secrets.json` when one exists (`none` models a
missing file); each field falls back from the file to the settings-derived
base, and the app password is forced to the root password when the
resolved user is `root`. -/
def loadMysqlSecrets (fromFile : Option MysqlSecretsFile)
    (settings : Settings) : MysqlSecrets :=
  let base := getMysqlSettings settings
  let mysqlRootPassword :=
    (fromFile.bind (·.mysql_root_password)).getD base.mysql_root_password
  let mysqlDatabase :=
    (fromFile.bind (·.mysql_database)).getD base.mysql_database
  let mysqlUser := (fromFile.bind (·.mysql_user)).getD base.mysql_user
  let mysqlPassword0 :=
    (fromFile.bind (·.mysql_password)).getD base.mysql_password
  let mysqlPassword :=
    if mysqlUser = "root" then mysqlRootPassword else mysqlPassword0
  { mysql_root_password := mysqlRootPassword
    mysql_database := mysqlDatabase
    mysql_user := mysqlUser
    mysql_password := mysqlPassword }

/-- The whole `loadMysqlSecrets` operation including its filesystem
effect: it returns the resolved secrets and the new content of
`secrets.json` (the merged result is always persisted back). -/
def loadMysqlSecretsOp (fromFile : Option MysqlSecretsFile)
    (settings : Settings) : MysqlSecrets × Option MysqlSecretsFile :=
  let secrets := loadMysqlSecrets fromFile settings
  (secrets, some secrets.toFile)

/-- Shallow embedding of the MySQL-credential part of the
`PUT /settings` handler: trims each field, rejects an empty root
password, database or user, mirrors the root password into the app
password when the user is `root`, rejects an empty resulting password,
and otherwise stores the resolved values. -/
def putSettingsMysql (root db user pass : String) : Option Settings :=
  let mysqlRootPassword := root.trim
  let mysqlDatabase := db.trim
  let mysqlUser := user.trim
  let mysqlPassword0 := pass.trim
  if mysqlRootPassword = "" ∨ mysqlDatabase = "" ∨ mysqlUser = "" then none
  else
    let mysqlPassword :=
      if mysqlUser = "root" then mysqlRootPassword else mysqlPassword0
    if mysqlPassword = "" then none
    else some ⟨mysqlRootPassword, mysqlDatabase, mysqlUser, mysqlPassword⟩

/-- C6.  Root-password mirroring: on every code path that produces
resolved MySQL secrets — fresh materialisation and resume (both run
through `loadMysqlSecrets`, with and without an existing secrets file,
whose base is `getMysqlSettings`) and the settings update handler — if
the resolved app user is `root` then the resolved app password equals
the resolved root password. -/
theorem mysql_root_mirroring :
    (∀ settings : Settings, (getMysqlSettings settings).mysql_user = "root" →
      (getMysqlSettings settings).mysql_password =
        (getMysqlSettings settings).mysql_root_password) ∧
    (∀ (fromFile : Option MysqlSecretsFile) (settings : Settings),
      (loadMysqlSecrets fromFile settings).mysql_user = "root" →
      (loadMysqlSecrets fromFile settings).mysql_password =
        (loadMysqlSecrets fromFile settings).mysql_root_password) ∧
    (∀ (root db user pass : String) (s : Settings),
      putSettingsMysql root db user pass = some s → s.mysql_user = "root" →
      s.mysql_password = s.mysql_root_password) := by
  refine ⟨?_, ?_, ?_⟩
  · intro settings h
    simp only [getMysqlSettings] at h ⊢
    rw [if_pos h]
  · intro fromFile settings h
    simp only [loadMysqlSecrets] at h ⊢
    rw [if_pos h]
  · intro root db user pass s hsome h
    simp only [putSettingsMysql] at hsome
    split at hsome
    · exact absurd hsome (by simp)
    · by_cases hu : user.trim = "root"
      · rw [if_pos hu] at hsome
        split at hsome
        · exact absurd hsome (by simp)
        · obtain rfl := Option.some.inj hsome
          rfl
      · rw [if_neg hu] at hsome
        split at hsome
        · exact absurd hsome (by simp)
        · obtain rfl := Option.some.inj hsome
          exact absurd h hu

/-- Witness for C6: with user `root` in Settings and no secrets file,
the resolved app password equals the resolved root password. -/
theorem mysql_root_mirroring_witness :
    (loadMysqlSecrets none ⟨"r", "d", "root", "q"⟩).mysql_password =
      (loadMysqlSecrets none ⟨"r", "d", "root", "q"⟩).mysql_root_password :=
  mysql_root_mirroring.2.1 none ⟨"r", "d", "root", "q"⟩ rfl

/-- C7 counterexample: a secrets file that stores `mysql_password = "p"`
(and nothing else), resolved against Settings whose user is `root` with
root password `"r"`, resolves the app password to `"r"` from Settings,
not to the stored `"p"` — so the stored file does not take precedence
for every credential field. -/
theorem loadMysqlSecrets_precedence_counterexample :
    (⟨none, none, none, some "p"⟩ : MysqlSecretsFile).mysql_password = some "p" ∧
    (loadMysqlSecrets (some ⟨none, none, none, some "p"⟩)
        ⟨"r", "d", "root", "q"⟩).mysql_password = "r" ∧
    ("r" : String) ≠ "p" :=
  ⟨rfl, rfl, by decide⟩

/-- C7 (amended).  With an existing secrets file: the stored root
password, database name and user each take precedence over Settings; the
stored app password takes precedence unless the resolved user is `root`,
in which case the app password is forced to the resolved root password;
the merged result is persisted back to the secrets file; and the
operation is idempotent — re-running it against the freshly persisted
file and unchanged Settings resolves to the same value. -/
theorem loadMysqlSecrets_spec (fromFile : MysqlSecretsFile)
    (settings : Settings) :
    (∀ v, fromFile.mysql_root_password = some v →
      (loadMysqlSecrets (some fromFile) settings).mysql_root_password = v) ∧
    (∀ v, fromFile.mysql_database = some v →
      (loadMysqlSecrets (some fromFile) settings).mysql_database = v) ∧
    (∀ v, fromFile.mysql_user = some v →
      (loadMysqlSecrets (some fromFile) settings).mysql_user = v) ∧
    (∀ v, fromFile.mysql_password = some v →
      (loadMysqlSecrets (some fromFile) settings).mysql_user ≠ "root" →
      (loadMysqlSecrets (some fromFile) settings).mysql_password = v) ∧
    ((loadMysqlSecrets (some fromFile) settings).mysql_user = "root" →
      (loadMysqlSecrets (some fromFile) settings).mysql_password =
        (loadMysqlSecrets (some fromFile) settings).mysql_root_password) ∧
    ((loadMysqlSecretsOp (some fromFile) settings).2 =
      some (loadMysqlSecretsOp (some fromFile) settings).1.toFile) ∧
    (loadMysqlSecrets (some (loadMysqlSecrets (some fromFile) settings).toFile)
        settings = loadMysqlSecrets (some fromFile) settings) := by
  refine ⟨?_, ?_, ?_, ?_, ?_, rfl, ?_⟩
  · intro v hv
    simp [loadMysqlSecrets, hv]
  · intro v hv
    simp [loadMysqlSecrets, hv]
  · intro v hv
    simp [loadMysqlSecrets, hv]
  · intro v hv hne
    simp only [loadMysqlSecrets] at hne ⊢
    rw [if_neg hne]
    simp [hv]
  · intro h
    simp only [loadMysqlSecrets] at h ⊢
    rw [if_pos h]
  · by_cases hu :
      fromFile.mysql_user.getD (getMysqlSettings settings).mysql_user = "root"
    · simp [loadMysqlSecrets, MysqlSecrets.toFile, hu]
    · simp [loadMysqlSecrets, MysqlSecrets.toFile, hu]

/-- Witness for C7: with a fully populated secrets file for a non-root
user, the stored app password wins over Settings. -/
theorem loadMysqlSecrets_spec_witness :
    (loadMysqlSecrets
        (some ⟨some "fr", some "fd", some "alice", some "fp"⟩)
        ⟨"r", "d", "root", "q"⟩).mysql_password = "fp" :=
  (loadMysqlSecrets_spec ⟨some "fr", some "fd", some "alice", some "fp"⟩
    ⟨"r", "d", "root", "q"⟩).2.2.2.1 "fp" rfl (by decide)

/-- Application runtime kind, from `apps/agent/src/types.ts`. -/
inductive Runtime
  | php
  | flask
deriving DecidableEq

/-- Database requirement, from `apps/agent/src/types.ts`. -/
inductive DbType
  | none
  | mysql
deriving DecidableEq

/-- Parameters of `writeComposeFiles`, from `apps/agent/src/types.ts`
(`ComposeParams`). -/
structure ComposeParams where
  runtime : Runtime
  runtimeVersion : String
  hostPort : Nat
  dbType : DbType
  dbRootPassword : Option String
  dbDatabase : Option String
  dbUser : Option String
  dbPassword : Option String
  dbInitExists : Bool
deriving DecidableEq

def dbName (p : ComposeParams) : String := p.dbDatabase.getD "ctf"

def appUser (p : ComposeParams) : String := p.dbUser.getD "root"

def appPassword (p : ComposeParams) : String :=
  if appUser p = "root" then p.dbRootPassword.getD ""
  else p.dbPassword.getD ""

/-- App-service credential environment block (`appEnv`). -/
def appEnv (p : ComposeParams) : String :=
  if p.dbType = DbType.mysql then
    String.intercalate "\n"
      ["    environment:",
       "      MYSQL_HOST: db",
       "      MYSQL_USER: " ++ appUser p,
       "      MYSQL_PASSWORD: " ++ appPassword p,
       "      MYSQL_DATABASE: " ++ dbName p]
  else ""

/-- App-service `depends_on` block (`dbDepends`). -/
def dbDepends (p : ComposeParams) : String :=
  if p.dbType = DbType.mysql then
    String.intercalate "\n" ["    depends_on:", "      - db"]
  else ""

/-- Read-only seed bind-mount line for `db/init.sql`. -/
def seedBindMountLine : String :=
  "      - ../pack/db/init.sql:/docker-entrypoint-initdb.d/init.sql:ro"

def dbInitLine (p : ComposeParams) : String :=
  if p.dbInitExists then seedBindMountLine else ""

/-- Environment lines of the `db` service (`mysqlEnv`). -/
def mysqlEnv (p : ComposeParams) : List String :=
  ["      MYSQL_ROOT_PASSWORD: " ++ p.dbRootPassword.getD "",
   "      MYSQL_DATABASE: " ++ dbName p] ++
  (if appUser p ≠ "root" then
    ["      MYSQL_USER: " ++ appUser p,
     "      MYSQL_PASSWORD: " ++ appPassword p]
  else [])

/-- Lines of the `db` service block before empty-line filtering. -/
def mysqlServiceLines (p : ComposeParams) : List String :=
  ["  db:", "    image: mysql:8", "    environment:"] ++ mysqlEnv p ++
  ["    volumes:", "      - ../mysql-data:/var/lib/mysql", dbInitLine p]

/-- Database service block (`mysqlService`). -/
def mysqlService (p : ComposeParams) : String :=
  if p.dbType = DbType.mysql then
    String.intercalate "\n" ((mysqlServiceLines p).filter (· != ""))
  else ""

/-- Flat token replacement (`render`): each occurrence of
`\x7b\x7bKEY\x7d\x7d` is replaced by its value, for each entry in
order. -/
def render (template : String) (values : List (String × String)) : String :=
  values.foldl
    (fun output kv =>
      String.intercalate kv.2 (output.splitOn ("\x7b\x7b" ++ kv.1 ++ "\x7d\x7d")))
    template

/-- Substitution map applied by `writeComposeFiles` to the
runtime-specific compose template. -/
def composeValues (p : ComposeParams) : List (String × String) :=
  [("HOST_PORT", toString p.hostPort),
   ("RUNTIME_VERSION", p.runtimeVersion),
   ("APP_ENV", appEnv p),
   ("DB_DEPENDS", dbDepends p),
   ("MYSQL_SERVICE", mysqlService p)]

theorem append_ne_of_mismatch (pre suf s : String) (i : Nat)
    (hi : i < pre.data.length) (hne : pre.data[i]? ≠ s.data[i]?) :
    pre ++ suf ≠ s := by
  intro h
  have hd := congrArg String.data h
  rw [String.data_append] at hd
  apply hne
  rw [← hd]
  exact (List.getElem?_append_left hi).symm

/-- C8.  Descriptor rendering conditionals: with db type `none` the
database service block, the credential environment block and the
`depends_on` block are all empty strings (so the corresponding template
tokens are replaced by nothing); with db type `mysql` the rendered
database service block contains the read-only seed bind-mount line
exactly once when `db/init.sql` is present in the pack and not at all
otherwise. -/
theorem writeComposeFiles_conditionals (p : ComposeParams) :
    (p.dbType = DbType.none →
      appEnv p = "" ∧ dbDepends p = "" ∧ mysqlService p = "") ∧
    (p.dbType = DbType.mysql →
      ((mysqlServiceLines p).filter (· != "")).count seedBindMountLine =
        if p.dbInitExists then 1 else 0) := by
  constructor
  · intro h
    refine ⟨?_, ?_, ?_⟩ <;> simp [appEnv, dbDepends, mysqlService, h]
  · intro _
    have hb1 : "      MYSQL_ROOT_PASSWORD: " ++ p.dbRootPassword.getD "" ≠
        "      - ../pack/db/init.sql:/docker-entrypoint-initdb.d/init.sql:ro" :=
      append_ne_of_mismatch _ _ _ 6 (by decide) (by decide)
    have hb2 : "      MYSQL_DATABASE: " ++ dbName p ≠
        "      - ../pack/db/init.sql:/docker-entrypoint-initdb.d/init.sql:ro" :=
      append_ne_of_mismatch _ _ _ 6 (by decide) (by decide)
    have hb3 : "      MYSQL_USER: " ++ appUser p ≠
        "      - ../pack/db/init.sql:/docker-entrypoint-initdb.d/init.sql:ro" :=
      append_ne_of_mismatch _ _ _ 6 (by decide) (by decide)
    have hb4 : "      MYSQL_PASSWORD: " ++ appPassword p ≠
        "      - ../pack/db/init.sql:/docker-entrypoint-initdb.d/init.sql:ro" :=
      append_ne_of_mismatch _ _ _ 6 (by decide) (by decide)
    have hf1 : (("      MYSQL_ROOT_PASSWORD: " ++ p.dbRootPassword.getD "") != "") = true :=
      bne_iff_ne.mpr (append_ne_of_mismatch _ _ _ 0 (by decide) (by decide))
    have hf2 : (("      MYSQL_DATABASE: " ++ dbName p) != "") = true :=
      bne_iff_ne.mpr (append_ne_of_mismatch _ _ _ 0 (by decide) (by decide))
    have hf3 : (("      MYSQL_USER: " ++ appUser p) != "") = true :=
      bne_iff_ne.mpr (append_ne_of_mismatch _ _ _ 0 (by decide) (by decide))
    have hf4 : (("      MYSQL_PASSWORD: " ++ appPassword p) != "") = true :=
      bne_iff_ne.mpr (append_ne_of_mismatch _ _ _ 0 (by decide) (by decide))
    rcases hinit : p.dbInitExists with _ | _ <;>
      by_cases hu : appUser p = "root" <;>
        simp [mysqlServiceLines, mysqlEnv, dbInitLine, hinit, hu,
          List.filter_append, List.count_append, List.count_cons,
          hb1, hb2, hb3, hb4, hf1, hf2, hf3, hf4, seedBindMountLine]

/-- Witness for C8: a concrete mysql render with the seed file present
has exactly one seed bind-mount line, and a `none` render yields empty
blocks. -/
theorem writeComposeFiles_conditionals_witness :
    appEnv ⟨Runtime.php, "8.3", 43000, DbType.none, Option.none,
      Option.none, Option.none, Option.none, false⟩ = "" ∧
    ((mysqlServiceLines ⟨Runtime.php, "8.3", 43000, DbType.mysql,
        some "r", some "d", some "u", some "p", true⟩).filter
      (· != "")).count seedBindMountLine = 1 := by
  constructor
  · exact ((writeComposeFiles_conditionals _).1 rfl).1
  · exact (writeComposeFiles_conditionals _).2 rfl

/-- Instance status column (`Instance["status"]`). -/
inductive Status
  | running
  | stopped
  | error
deriving DecidableEq

/-- Row of the `instances` table; ids, compose projects and timestamps
are opaque, so ids stand in for both and the creation order is kept by
list position (newest first). -/
structure InstanceRow where
  id : Nat
  challenge_id : Nat
  status : Status
  host_port : Nat
  container_port : Nat
  compose_project : Nat
deriving DecidableEq

/-- Row of the `challenges` table, restricted to the fields the
lifecycle handlers read. -/
structure ChallengeRow where
  id : Nat
  runtime : Runtime
  db_type : DbType
deriving DecidableEq

/-- Persistent store plus the on-disk per-instance workspaces: `ws`
holds the ids of instances whose workdir exists.  `instances` is ordered
newest-first, so a head-first `find?` models the
`ORDER BY created_at DESC LIMIT 1` lookups of `db.ts`. -/
structure AgentState where
  challenges : List ChallengeRow
  instances : List InstanceRow
  ws : List Nat
deriving DecidableEq

/-- `getLatestInstanceByChallenge` of `db.ts`. -/
def getLatestInstanceByChallenge (st : AgentState) (cid : Nat) :
    Option InstanceRow :=
  st.instances.find? (fun i => i.challenge_id == cid)

/-- `listRunningInstances` of `db.ts`. -/
def listRunningInstances (st : AgentState) : List InstanceRow :=
  st.instances.filter (fun i => i.status == Status.running)

/-- `getInstance` of `db.ts`. -/
def getInstance (st : AgentState) (iid : Nat) : Option InstanceRow :=
  st.instances.find? (fun i => i.id == iid)

/-- `insertInstance` of `db.ts` (new rows are newest). -/
def insertInstance (st : AgentState) (row : InstanceRow) : AgentState :=
  { st with instances := row :: st.instances }

/-- `deleteInstance` of `db.ts`. -/
def deleteInstance (st : AgentState) (iid : Nat) : AgentState :=
  { st with instances := st.instances.filter (fun i => i.id != iid) }

/-- `updateInstanceStatus` of `db.ts`. -/
def updateInstanceStatus (st : AgentState) (iid : Nat) (status : Status) :
    AgentState :=
  let upd := fun i : InstanceRow =>
    if i.id == iid then { i with status := status } else i
  { st with instances := st.instances.map upd }

/-- `updateInstanceAfterStart` of `db.ts`. -/
def updateInstanceAfterStart (st : AgentState) (iid : Nat) (status : Status)
    (hostPort : Nat) : AgentState :=
  let upd := fun i : InstanceRow =>
    if i.id == iid then { i with status := status, host_port := hostPort }
    else i
  { st with instances := st.instances.map upd }

/-- `getContainerPort` of the agent entrypoint. -/
def getContainerPort (runtime : Runtime) : Nat :=
  if runtime = Runtime.php then 80 else 8000

/-- Error detail sent on a failed `compose up`
(`composeResult.stderr || "起動に失敗しました"`). -/
def upErrorMessage (stderr : String) : String :=
  if stderr = "" then "could not start" else stderr

/-- Error detail sent on a failed `compose down`
(`result.stderr || "停止に失敗しました"`). -/
def downErrorMessage (stderr : String) : String :=
  if stderr = "" then "could not stop" else stderr

/-- Oracle inputs consumed by one `POST /instances` request: the bind
probe, the workspace existence check (`packExists && composeExists`),
the `compose up` exit status and captured stderr, and the fresh UUID. -/
structure StartEnv where
  probe : Nat → Bool
  packAndComposeExists : Bool
  upOk : Bool
  upStderr : String
  freshId : Nat

/-- Oracle inputs consumed by a `compose down` invocation. -/
structure StopEnv where
  downOk : Bool
  downStderr : String
deriving DecidableEq

/-- Reply of `POST /instances`. -/
inductive StartResult
  | notFound
  | alreadyRunning
  | started (id : Nat) (host_port : Nat)
  | upFailed (error : String)
  | portsExhausted
deriving DecidableEq

/-- Reply of `POST /instances/:id/stop`. -/
inductive StopResult
  | notFound
  | stopped
  | downFailed (error : String)
deriving DecidableEq

/-- Reply of `DELETE /instances/:id`. -/
inductive DeleteResult
  | notFound
  | deleted
  | downFailed (error : String)
deriving DecidableEq

/-- Port chosen on the resume path of `POST /instances`: keep the prior
port unless it is reserved by a running instance or fails a fresh
probe, in which case reallocate. -/
def resumeHostPort (probe : Nat → Bool) (ranges : List PortRange)
    (reservedPorts : List Nat) (prior : Nat) : Option Nat :=
  if reservedPorts.contains prior then
    findAvailablePort probe ranges reservedPorts
  else if probe prior then
    some prior
  else
    findAvailablePort probe ranges reservedPorts

/-- Fresh-start tail of `POST /instances` (lines following the
latest-instance block): allocate a port, materialise the workspace
(`copyDir`), run `compose up`, and insert the row with status `running`
on success and `error` on failure; a port-exhaustion throw aborts before
any workspace or row is created. -/
def freshStart (ranges : List PortRange) (env : StartEnv) (st : AgentState)
    (ch : ChallengeRow) : AgentState × StartResult :=
  let reservedPorts := (listRunningInstances st).map (·.host_port)
  match findAvailablePort env.probe ranges reservedPorts with
  | none => (st, StartResult.portsExhausted)
  | some hostPort =>
    let st := { st with ws := env.freshId :: st.ws }
    let status := if env.upOk then Status.running else Status.error
    let row : InstanceRow :=
      { id := env.freshId, challenge_id := ch.id, status := status,
        host_port := hostPort, container_port := getContainerPort ch.runtime,
        compose_project := env.freshId }
    let st := insertInstance st row
    if env.upOk then (st, StartResult.started env.freshId hostPort)
    else (st, StartResult.upFailed (upErrorMessage env.upStderr))

/-- Shallow embedding of the `POST /instances` handler: reject when the
latest instance of the challenge is running; resume it when its
workspace is intact (reusing or reallocating its port, updating the row
only on a successful `up`); purge an orphaned row plus residual workdir
and fall through to a fresh start otherwise. -/
def startStep (ranges : List PortRange) (env : StartEnv) (st : AgentState)
    (cid : Nat) : AgentState × StartResult :=
  match st.challenges.find? (fun c => c.id == cid) with
  | none => (st, StartResult.notFound)
  | some ch =>
    match getLatestInstanceByChallenge st cid with
    | some latestInstance =>
      if latestInstance.status = Status.running then
        (st, StartResult.alreadyRunning)
      else if env.packAndComposeExists then
        let reservedPorts := (listRunningInstances st).map (·.host_port)
        match resumeHostPort env.probe ranges reservedPorts
            latestInstance.host_port with
        | none => (st, StartResult.portsExhausted)
        | some hostPort =>
          if env.upOk then
            (updateInstanceAfterStart st latestInstance.id Status.running
              hostPort,
             StartResult.started latestInstance.id hostPort)
          else
            (st, StartResult.upFailed (upErrorMessage env.upStderr))
      else
        let st' := { deleteInstance st latestInstance.id with
                       ws := st.ws.filter (fun w => w != latestInstance.id) }
        freshStart ranges env st' ch
    | none => freshStart ranges env st ch

/-- Shallow embedding of the `POST /instances/:id/stop` handler: run
`compose down`; only on exit 0 flip the status to `stopped`. -/
def stopStep (env : StopEnv) (st : AgentState) (iid : Nat) :
    AgentState × StopResult :=
  match getInstance st iid with
  | none => (st, StopResult.notFound)
  | some _ =>
    if env.downOk then
      (updateInstanceStatus st iid Status.stopped, StopResult.stopped)
    else
      (st, StopResult.downFailed (downErrorMessage env.downStderr))

/-- Shallow embedding of the `DELETE /instances/:id` handler: a running
instance is first brought down, a failure aborting the delete with
nothing changed; then the row is removed and the workdir deleted. -/
def deleteStep (env : StopEnv) (st : AgentState) (iid : Nat) :
    AgentState × DeleteResult :=
  match getInstance st iid with
  | none => (st, DeleteResult.notFound)
  | some instanceRow =>
    let removed :=
      { deleteInstance st iid with ws := st.ws.filter (fun w => w != iid) }
    if instanceRow.status = Status.running then
      if env.downOk then (removed, DeleteResult.deleted)
      else (st, DeleteResult.downFailed (downErrorMessage env.downStderr))
    else (removed, DeleteResult.deleted)

/-- One lifecycle operation together with its oracle inputs. -/
inductive AgentOp
  | start (cid : Nat) (ranges : List PortRange) (env : StartEnv)
  | stop (iid : Nat) (env : StopEnv)
  | delete (iid : Nat) (env : StopEnv)

/-- State reached after one operation (replies discarded). -/
def runOp (st : AgentState) (op : AgentOp) : AgentState :=
  match op with
  | AgentOp.start cid ranges env => (startStep ranges env st cid).1
  | AgentOp.stop iid env => (stopStep env st iid).1
  | AgentOp.delete iid env => (deleteStep env st iid).1

/-- State reached after a sequence of operations. -/
def runOps (st : AgentState) (ops : List AgentOp) : AgentState :=
  ops.foldl runOp st

/-- Number of persisted Instance rows owned by a challenge. -/
def instancesFor (st : AgentState) (cid : Nat) : Nat :=
  (st.instances.filter (fun i => i.challenge_id == cid)).length

theorem instancesFor_eq_countP (st : AgentState) (cid : Nat) :
    instancesFor st cid =
      st.instances.countP (fun i => i.challenge_id == cid) := by
  rw [instancesFor, List.countP_eq_length_filter]

theorem countP_challenge_map (l : List InstanceRow)
    (f : InstanceRow → InstanceRow)
    (hf : ∀ i, (f i).challenge_id = i.challenge_id) (cid : Nat) :
    (l.map f).countP (fun i => i.challenge_id == cid) =
      l.countP (fun i => i.challenge_id == cid) := by
  rw [List.countP_map]
  exact List.countP_congr fun x _ => by simp [Function.comp, hf]

theorem instancesFor_updateInstanceStatus (st : AgentState) (iid : Nat)
    (s : Status) (c : Nat) :
    instancesFor (updateInstanceStatus st iid s) c = instancesFor st c := by
  rw [updateInstanceStatus, instancesFor_eq_countP, instancesFor_eq_countP]
  refine countP_challenge_map _ _ ?_ c
  intro i
  by_cases hi : (i.id == iid) = true <;> simp [hi]

theorem instancesFor_updateInstanceAfterStart (st : AgentState) (iid : Nat)
    (s : Status) (p : Nat) (c : Nat) :
    instancesFor (updateInstanceAfterStart st iid s p) c =
      instancesFor st c := by
  rw [updateInstanceAfterStart, instancesFor_eq_countP, instancesFor_eq_countP]
  refine countP_challenge_map _ _ ?_ c
  intro i
  by_cases hi : (i.id == iid) = true <;> simp [hi]

theorem instancesFor_deleteInstance_le (st : AgentState) (iid : Nat)
    (c : Nat) : instancesFor (deleteInstance st iid) c ≤ instancesFor st c := by
  rw [deleteInstance, instancesFor_eq_countP, instancesFor_eq_countP]
  exact (List.filter_sublist _).countP_le _

/-- After deleting (by id) the row that a successful `find?` returned,
no row of that challenge remains, provided there was at most one. -/
theorem countP_delete_found {p : InstanceRow → Bool} {l : List InstanceRow}
    {a : InstanceRow} (hfind : l.find? p = some a) (hle : l.countP p ≤ 1) :
    (l.filter (fun i => i.id != a.id)).countP p = 0 := by
  obtain ⟨l₁, l₂, rfl, hfail, hpa⟩ := find?_eq_some_split hfind
  have h₂ : l₂.countP p = 0 := by
    rw [List.countP_append, List.countP_cons] at hle
    have h₁ : l₁.countP p = 0 :=
      List.countP_eq_zero.mpr (by intro x hx; simp [hfail x hx])
    rw [h₁, hpa] at hle
    have hle' : l₂.countP p + 1 ≤ 1 := by simpa using hle
    omega
  refine List.countP_eq_zero.mpr ?_
  intro x hx hpx
  rcases List.mem_filter.mp hx with ⟨hxl, hxid⟩
  rcases List.mem_append.mp hxl with hx₁ | hx₂
  · exact absurd hpx (by simp [hfail x hx₁])
  · rcases List.mem_cons.mp hx₂ with rfl | hx₂
    · simp at hxid
    · have := List.countP_eq_zero.mp h₂ x hx₂
      exact this hpx

theorem instancesFor_freshStart_le (ranges : List PortRange) (env : StartEnv)
    (st : AgentState) (ch : ChallengeRow)
    (h0 : instancesFor st ch.id = 0) (hle : ∀ c, instancesFor st c ≤ 1)
    (c : Nat) : instancesFor (freshStart ranges env st ch).1 c ≤ 1 := by
  rw [freshStart]
  split
  · exact hle c
  · split <;>
    · rw [instancesFor_eq_countP]
      simp only [insertInstance, List.countP_cons]
      by_cases hc : ch.id = c
      · subst hc
        rw [instancesFor_eq_countP] at h0
        simp [h0]
      · have : (ch.id == c) = false := by simp [hc]
        simp only [this, if_false]
        rw [← instancesFor_eq_countP]
        simpa using hle c

/-- Every single lifecycle operation preserves the at-most-one-row-per-
challenge bound. -/
theorem instancesFor_runOp_le (st : AgentState) (op : AgentOp)
    (h : ∀ c, instancesFor st c ≤ 1) (cid : Nat) :
    instancesFor (runOp st op) cid ≤ 1 := by
  cases op with
  | stop iid env =>
    rw [runOp, stopStep]
    split
    · exact h cid
    · split
      · rw [instancesFor_updateInstanceStatus]
        exact h cid
      · exact h cid
  | delete iid env =>
    rw [runOp, deleteStep]
    split
    · exact h cid
    · split
      · split
        · calc instancesFor _ cid = instancesFor (deleteInstance st iid) cid := rfl
            _ ≤ instancesFor st cid := instancesFor_deleteInstance_le st iid cid
            _ ≤ 1 := h cid
        · exact h cid
      · calc instancesFor _ cid = instancesFor (deleteInstance st iid) cid := rfl
          _ ≤ instancesFor st cid := instancesFor_deleteInstance_le st iid cid
          _ ≤ 1 := h cid
  | start scid ranges env =>
    rw [runOp, startStep]
    split
    · exact h cid
    · rename_i ch hch
      have hchid : ch.id = scid := by simpa using List.find?_some hch
      split
      · rename_i inst hinst
        split
        · exact h cid
        · split
          · split
            · dsimp only
              split
              · exact h cid
              · rw [instancesFor_updateInstanceAfterStart]
                exact h cid
            · dsimp only
              split
              · exact h cid
              · exact h cid
          · rename_i hpack
            refine instancesFor_freshStart_le _ _ _ _ ?_ ?_ cid
            · rw [instancesFor_eq_countP]
              show (st.instances.filter (fun i => i.id != inst.id)).countP
                (fun i => i.challenge_id == ch.id) = 0
              rw [hchid]
              refine countP_delete_found hinst ?_
              rw [← instancesFor_eq_countP]
              exact h scid
            · intro c
              calc instancesFor _ c
                  = instancesFor (deleteInstance st inst.id) c := rfl
                _ ≤ instancesFor st c := instancesFor_deleteInstance_le st inst.id c
                _ ≤ 1 := h c
      · rename_i hnone
        refine instancesFor_freshStart_le _ _ _ _ ?_ h cid
        rw [instancesFor_eq_countP, hchid]
        exact List.countP_eq_zero.mpr (List.find?_eq_none.mp hnone)

/-- C1.  At most one Instance row per challenge: starting from a store
with no instances, after every sequence of Start, Stop and Delete
operations (against any challenges, with any oracle outcomes) the store
holds at most one Instance row per challenge — a Start either rejects an
already-running instance, resumes the existing row in place, or deletes
the orphaned row before inserting the fresh one. -/
theorem at_most_one_instance_per_challenge (chs : List ChallengeRow)
    (ops : List AgentOp) (cid : Nat) :
    instancesFor (runOps ⟨chs, [], []⟩ ops) cid ≤ 1 := by
  suffices h : ∀ st : AgentState, (∀ c, instancesFor st c ≤ 1) →
      ∀ c, instancesFor (runOps st ops) c ≤ 1 by
    exact h ⟨chs, [], []⟩ (fun c => by simp [instancesFor, runOps]) cid
  induction ops with
  | nil => exact fun st h c => h c
  | cons op rest ih =>
    intro st h c
    exact ih (runOp st op) (fun c' => instancesFor_runOp_le st op h c') c

/-- On a fresh start whose `compose up` fails, the row is nevertheless
inserted with status `error` and the failure is reported with the
captured stderr. -/
theorem freshStart_up_failed (ranges : List PortRange) (env : StartEnv)
    (st : AgentState) (ch : ChallengeRow) (p : Nat)
    (hport : findAvailablePort env.probe ranges
      ((listRunningInstances st).map (·.host_port)) = some p)
    (hup : env.upOk = false) :
    freshStart ranges env st ch =
      (insertInstance { st with ws := env.freshId :: st.ws }
        { id := env.freshId, challenge_id := ch.id, status := Status.error,
          host_port := p, container_port := getContainerPort ch.runtime,
          compose_project := env.freshId },
       StartResult.upFailed (upErrorMessage env.upStderr)) := by
  rw [freshStart]
  dsimp only
  rw [hport]
  simp [hup]

/-- C3 counterexample: a Start that resumes a stopped instance with an
intact workspace and a failing `compose up` leaves the store unchanged —
the lone row keeps status `stopped`, and no row with status `error`
exists afterwards, contradicting the claim for the resume path. -/
theorem start_failure_persistence_counterexample :
    (startStep [⟨43000, 43100⟩] ⟨fun _ => true, true, false, "boom", 99⟩
        ⟨[⟨1, Runtime.php, DbType.none⟩],
         [⟨10, 1, Status.stopped, 43000, 80, 10⟩], [10]⟩ 1) =
      (⟨[⟨1, Runtime.php, DbType.none⟩],
        [⟨10, 1, Status.stopped, 43000, 80, 10⟩], [10]⟩,
       StartResult.upFailed "boom") ∧
    ((startStep [⟨43000, 43100⟩] ⟨fun _ => true, true, false, "boom", 99⟩
        ⟨[⟨1, Runtime.php, DbType.none⟩],
         [⟨10, 1, Status.stopped, 43000, 80, 10⟩], [10]⟩ 1).1.instances.filter
      (fun i => i.status == Status.error)).length = 0 :=
  ⟨rfl, rfl⟩

/-- C3 (amended).  Start failure persistence holds on the fresh-start
paths only: when `compose up` exits nonzero, a fresh start (no prior
row, first conjunct) and an orphan fallthrough (stale row purged, second
conjunct) both leave a row for the challenge with status `error`
carrying the allocated port and the new project identifier, and report
the failure with the captured stderr; a failed resume (third conjunct)
reports the failure with the captured stderr but leaves the persisted
state entirely unchanged, its row keeping its previous status. -/
theorem start_failure_reporting (ranges : List PortRange) (env : StartEnv)
    (st : AgentState) (cid : Nat) (hup : env.upOk = false) :
    (∀ ch p, st.challenges.find? (fun c => c.id == cid) = some ch →
      getLatestInstanceByChallenge st cid = none →
      findAvailablePort env.probe ranges
        ((listRunningInstances st).map (·.host_port)) = some p →
      (startStep ranges env st cid).2 =
        StartResult.upFailed (upErrorMessage env.upStderr) ∧
      getLatestInstanceByChallenge (startStep ranges env st cid).1 cid =
        some { id := env.freshId, challenge_id := cid, status := Status.error,
               host_port := p, container_port := getContainerPort ch.runtime,
               compose_project := env.freshId }) ∧
    (∀ ch inst p, st.challenges.find? (fun c => c.id == cid) = some ch →
      getLatestInstanceByChallenge st cid = some inst →
      inst.status ≠ Status.running →
      env.packAndComposeExists = false →
      findAvailablePort env.probe ranges
        ((listRunningInstances
          { deleteInstance st inst.id with
              ws := st.ws.filter (fun w => w != inst.id) }).map (·.host_port)) =
        some p →
      (startStep ranges env st cid).2 =
        StartResult.upFailed (upErrorMessage env.upStderr) ∧
      getLatestInstanceByChallenge (startStep ranges env st cid).1 cid =
        some { id := env.freshId, challenge_id := cid, status := Status.error,
               host_port := p, container_port := getContainerPort ch.runtime,
               compose_project := env.freshId }) ∧
    (∀ ch inst, st.challenges.find? (fun c => c.id == cid) = some ch →
      getLatestInstanceByChallenge st cid = some inst →
      inst.status ≠ Status.running →
      env.packAndComposeExists = true →
      (resumeHostPort env.probe ranges
        ((listRunningInstances st).map (·.host_port))
        inst.host_port).isSome = true →
      startStep ranges env st cid =
        (st, StartResult.upFailed (upErrorMessage env.upStderr))) := by
  refine ⟨?_, ?_, ?_⟩
  · intro ch p hch hlatest hport
    have hchid : ch.id = cid := by simpa using List.find?_some hch
    rw [startStep, hch, hlatest]
    dsimp only
    rw [freshStart_up_failed ranges env st ch p hport hup]
    refine ⟨rfl, ?_⟩
    rw [getLatestInstanceByChallenge, insertInstance]
    rw [List.find?_cons_of_pos _ (by simp [hchid])]
    simp [hchid]
  · intro ch inst p hch hlatest hstatus hpack hport
    have hchid : ch.id = cid := by simpa using List.find?_some hch
    rw [startStep, hch, hlatest]
    dsimp only
    rw [if_neg hstatus, hpack, if_neg Bool.false_ne_true]
    rw [freshStart_up_failed _ env _ ch p hport hup]
    refine ⟨rfl, ?_⟩
    rw [getLatestInstanceByChallenge, insertInstance]
    rw [List.find?_cons_of_pos _ (by simp [hchid])]
    simp [hchid]
  · intro ch inst hch hlatest hstatus hpack hport
    rw [startStep, hch, hlatest]
    dsimp only
    rw [if_neg hstatus, hpack, if_pos rfl]
    obtain ⟨q, hq⟩ := Option.isSome_iff_exists.mp hport
    rw [hq]
    simp [hup]

/-- Witness for C3 (amended): a concrete fresh start whose `up` fails
reports the stderr and leaves an error row with the allocated port. -/
theorem start_failure_reporting_witness :
    (startStep [⟨43000, 43000⟩] ⟨fun _ => true, false, false, "boom", 7⟩
        ⟨[⟨1, Runtime.php, DbType.none⟩], [], []⟩ 1).2 =
      StartResult.upFailed (upErrorMessage "boom") ∧
    getLatestInstanceByChallenge
      (startStep [⟨43000, 43000⟩] ⟨fun _ => true, false, false, "boom", 7⟩
        ⟨[⟨1, Runtime.php, DbType.none⟩], [], []⟩ 1).1 1 =
      some ⟨7, 1, Status.error, 43000, getContainerPort Runtime.php, 7⟩ :=
  (start_failure_reporting [⟨43000, 43000⟩] ⟨fun _ => true, false, false, "boom", 7⟩
    ⟨[⟨1, Runtime.php, DbType.none⟩], [], []⟩ 1 rfl).1
    ⟨1, Runtime.php, DbType.none⟩ 43000 rfl rfl rfl

/-- Looking up a row by primary key after `updateInstanceAfterStart`
returns the updated row (ids are unique in the store). -/
theorem getInstance_updateInstanceAfterStart (st : AgentState)
    (inst : InstanceRow) (hnd : (st.instances.map (·.id)).Nodup)
    (hmem : inst ∈ st.instances) (s : Status) (p : Nat) :
    getInstance (updateInstanceAfterStart st inst.id s p) inst.id =
      some { inst with status := s, host_port := p } := by
  rw [getInstance, updateInstanceAfterStart]
  dsimp only
  rw [List.find?_map]
  have hcomp : ((fun i : InstanceRow => i.id == inst.id) ∘
      (fun i : InstanceRow => if i.id == inst.id then
        { i with status := s, host_port := p } else i)) =
      (fun i : InstanceRow => i.id == inst.id) := by
    funext i
    by_cases hi : (i.id == inst.id) = true <;> simp [Function.comp, hi]
  rw [hcomp]
  cases hf : st.instances.find? (fun i => i.id == inst.id) with
  | none =>
    exact absurd (by simp : (inst.id == inst.id) = true)
      (List.find?_eq_none.mp hf inst hmem)
  | some row =>
    have h1 : row.id = inst.id := by simpa using List.find?_some hf
    have h2 : row ∈ st.instances := List.mem_of_find?_eq_some hf
    obtain rfl : row = inst := List.inj_on_of_nodup_map hnd h2 hmem h1
    simp

/-- C4.  Resume port policy: starting an existing non-running instance
whose workspace is intact keeps its prior port when that port is not
reserved by a running instance and passes a fresh probe (first
conjunct); when the port is reserved or fails the probe, a new port is
allocated by `findAvailablePort` excluding the reserved set (second
conjunct); in both cases a successful `up` updates the persisted row to
status `running` with the chosen port. -/
theorem resume_port_policy (ranges : List PortRange) (env : StartEnv)
    (st : AgentState) (cid : Nat) (ch : ChallengeRow) (inst : InstanceRow)
    (hch : st.challenges.find? (fun c => c.id == cid) = some ch)
    (hlatest : getLatestInstanceByChallenge st cid = some inst)
    (hstatus : inst.status ≠ Status.running)
    (hpack : env.packAndComposeExists = true)
    (hup : env.upOk = true)
    (hnd : (st.instances.map (·.id)).Nodup) :
    ((((listRunningInstances st).map (·.host_port)).contains inst.host_port
        = false →
      env.probe inst.host_port = true →
      startStep ranges env st cid =
        (updateInstanceAfterStart st inst.id Status.running inst.host_port,
         StartResult.started inst.id inst.host_port) ∧
      getInstance (startStep ranges env st cid).1 inst.id =
        some { inst with status := Status.running }) ∧
    (∀ p, (((listRunningInstances st).map (·.host_port)).contains
          inst.host_port = true ∨
        env.probe inst.host_port = false) →
      findAvailablePort env.probe ranges
        ((listRunningInstances st).map (·.host_port)) = some p →
      startStep ranges env st cid =
        (updateInstanceAfterStart st inst.id Status.running p,
         StartResult.started inst.id p) ∧
      p ∉ (listRunningInstances st).map (·.host_port) ∧
      getInstance (startStep ranges env st cid).1 inst.id =
        some { inst with status := Status.running, host_port := p })) := by
  have hmem : inst ∈ st.instances := List.mem_of_find?_eq_some hlatest
  constructor
  · intro hres hprobe
    have hrhp : resumeHostPort env.probe ranges
        ((listRunningInstances st).map (·.host_port)) inst.host_port =
        some inst.host_port := by
      rw [resumeHostPort, hres]
      simp [hprobe]
    have hstep : startStep ranges env st cid =
        (updateInstanceAfterStart st inst.id Status.running inst.host_port,
         StartResult.started inst.id inst.host_port) := by
      rw [startStep, hch, hlatest]
      dsimp only
      rw [if_neg hstatus, hpack, if_pos rfl, hrhp]
      simp [hup]
    refine ⟨hstep, ?_⟩
    rw [hstep]
    exact getInstance_updateInstanceAfterStart st inst hnd hmem
      Status.running inst.host_port
  · intro p hbad hfind
    have hrhp : resumeHostPort env.probe ranges
        ((listRunningInstances st).map (·.host_port)) inst.host_port =
        some p := by
      rcases hbad with hres | hprobe
      · rw [resumeHostPort, hres]
        simpa using hfind
      · by_cases hres : (((listRunningInstances st).map (·.host_port)).contains
            inst.host_port) = true
        · rw [resumeHostPort, hres]
          simpa using hfind
        · have hres' := Bool.not_eq_true _ ▸ hres
          rw [resumeHostPort, Bool.eq_false_iff.mpr hres]
          simp [hprobe, hfind]
    have hstep : startStep ranges env st cid =
        (updateInstanceAfterStart st inst.id Status.running p,
         StartResult.started inst.id p) := by
      rw [startStep, hch, hlatest]
      dsimp only
      rw [if_neg hstatus, hpack, if_pos rfl, hrhp]
      simp [hup]
    refine ⟨hstep, ?_, ?_⟩
    · have := (findAvailablePort_pred hfind).1
      simpa using this
    · rw [hstep]
      exact getInstance_updateInstanceAfterStart st inst hnd hmem
        Status.running p

/-- Witness for C4: resuming a stopped instance whose prior port 43005
is unreserved and probe-available reassigns the same port and marks the
row running. -/
theorem resume_port_policy_witness :
    getInstance
      (startStep [⟨43000, 43100⟩] ⟨fun _ => true, true, true, "", 99⟩
        ⟨[⟨1, Runtime.php, DbType.none⟩],
         [⟨10, 1, Status.stopped, 43005, 80, 10⟩], [10]⟩ 1).1 10 =
      some ⟨10, 1, Status.running, 43005, 80, 10⟩ :=
  ((resume_port_policy [⟨43000, 43100⟩] ⟨fun _ => true, true, true, "", 99⟩
    ⟨[⟨1, Runtime.php, DbType.none⟩],
     [⟨10, 1, Status.stopped, 43005, 80, 10⟩], [10]⟩ 1
    ⟨1, Runtime.php, DbType.none⟩ ⟨10, 1, Status.stopped, 43005, 80, 10⟩
    rfl rfl (by decide) rfl rfl (by decide)).1 rfl rfl).2

/-- Looking up a row by primary key after `updateInstanceStatus` returns
the updated row (ids are unique in the store). -/
theorem getInstance_updateInstanceStatus (st : AgentState)
    (inst : InstanceRow) (hnd : (st.instances.map (·.id)).Nodup)
    (hmem : inst ∈ st.instances) (s : Status) :
    getInstance (updateInstanceStatus st inst.id s) inst.id =
      some { inst with status := s } := by
  rw [getInstance, updateInstanceStatus]
  dsimp only
  rw [List.find?_map]
  have hcomp : ((fun i : InstanceRow => i.id == inst.id) ∘
      (fun i : InstanceRow => if i.id == inst.id then
        { i with status := s } else i)) =
      (fun i : InstanceRow => i.id == inst.id) := by
    funext i
    by_cases hi : (i.id == inst.id) = true <;> simp [Function.comp, hi]
  rw [hcomp]
  cases hf : st.instances.find? (fun i => i.id == inst.id) with
  | none =>
    exact absurd (by simp : (inst.id == inst.id) = true)
      (List.find?_eq_none.mp hf inst hmem)
  | some row =>
    have h1 : row.id = inst.id := by simpa using List.find?_some hf
    have h2 : row ∈ st.instances := List.mem_of_find?_eq_some hf
    obtain rfl : row = inst := List.inj_on_of_nodup_map hnd h2 hmem h1
    simp

/-- C9.  Stop and Delete atomicity: a Stop flips the instance to
`stopped` exactly when `compose down` exits zero, a nonzero exit leaving
the store unchanged and reporting the captured stderr; a Delete of a
running instance whose implicit down fails aborts with the row and
workspace untouched, while a Delete whose down succeeds (or whose
instance is not running) removes both the persisted row and the
workspace directory. -/
theorem stop_delete_atomicity (st : AgentState) (iid : Nat) (env : StopEnv) :
    (∀ inst, getInstance st iid = some inst →
      (st.instances.map (·.id)).Nodup →
      (env.downOk = true →
        (stopStep env st iid).2 = StopResult.stopped ∧
        getInstance (stopStep env st iid).1 iid =
          some { inst with status := Status.stopped }) ∧
      (env.downOk = false →
        stopStep env st iid =
          (st, StopResult.downFailed (downErrorMessage env.downStderr)))) ∧
    (∀ inst, getInstance st iid = some inst →
      (inst.status = Status.running → env.downOk = false →
        deleteStep env st iid =
          (st, DeleteResult.downFailed (downErrorMessage env.downStderr))) ∧
      ((inst.status ≠ Status.running ∨ env.downOk = true) →
        (deleteStep env st iid).2 = DeleteResult.deleted ∧
        getInstance (deleteStep env st iid).1 iid = none ∧
        iid ∉ (deleteStep env st iid).1.ws)) := by
  constructor
  · intro inst hfound hnd
    have hid : inst.id = iid := by simpa using List.find?_some hfound
    have hmem := List.mem_of_find?_eq_some hfound
    constructor
    · intro hdown
      rw [stopStep, hfound]
      dsimp only
      rw [hdown, if_pos rfl]
      refine ⟨rfl, ?_⟩
      dsimp only
      rw [← hid]
      exact getInstance_updateInstanceStatus st inst hnd hmem Status.stopped
    · intro hdown
      rw [stopStep, hfound]
      dsimp only
      rw [hdown, if_neg Bool.false_ne_true]
  · intro inst hfound
    constructor
    · intro hrun hdown
      rw [deleteStep, hfound]
      dsimp only
      rw [if_pos hrun, hdown, if_neg Bool.false_ne_true]
    · intro hok
      have hdel : deleteStep env st iid =
          ({ deleteInstance st iid with
              ws := st.ws.filter (fun w => w != iid) },
           DeleteResult.deleted) := by
        rw [deleteStep, hfound]
        dsimp only
        rcases hok with hst | hdown
        · rw [if_neg hst]
        · rw [hdown]
          by_cases hrun : inst.status = Status.running
          · rw [if_pos hrun, if_pos rfl]
          · rw [if_neg hrun]
      rw [hdel]
      refine ⟨rfl, ?_, ?_⟩
      · rw [getInstance]
        refine List.find?_eq_none.mpr ?_
        intro x hx
        have hxne := (List.mem_filter.mp hx).2
        simpa using hxne
      · intro hmem'
        have := (List.mem_filter.mp hmem').2
        simp at this

/-- Witness for C9: deleting a stopped instance removes its row and its
workspace. -/
theorem stop_delete_atomicity_witness :
    (deleteStep ⟨true, ""⟩
        ⟨[], [⟨10, 1, Status.stopped, 43005, 80, 10⟩], [10]⟩ 10).2 =
      DeleteResult.deleted ∧
    getInstance (deleteStep ⟨true, ""⟩
        ⟨[], [⟨10, 1, Status.stopped, 43005, 80, 10⟩], [10]⟩ 10).1 10 = none ∧
    10 ∉ (deleteStep ⟨true, ""⟩
        ⟨[], [⟨10, 1, Status.stopped, 43005, 80, 10⟩], [10]⟩ 10).1.ws :=
  ((stop_delete_atomicity
      ⟨[], [⟨10, 1, Status.stopped, 43005, 80, 10⟩], [10]⟩ 10 ⟨true, ""⟩).2
    ⟨10, 1, Status.stopped, 43005, 80, 10⟩ rfl).2 (Or.inr rfl)

/-- File section of an exported `manifest.json` (`Manifest["files"]`). -/
structure ManifestFiles where
  hash : String
deriving DecidableEq

/-- Bundle manifest as read by the `POST /import` handler, reduced to
the part the files-hash logic consumes. -/
structure Manifest where
  files : ManifestFiles
deriving DecidableEq

/-- The files-hash stored by `POST /import`
(`manifest?.files?.hash ?? (await hashDirectory(destFilesDir))`): when a
manifest carrying a hash is present its value is stored verbatim,
otherwise the hash of the stored tree is computed with the digest `H`. -/
def importFilesHash (manifest : Option Manifest) (H : Bytes → String)
    (destFiles : List FileEntry) : String :=
  match manifest with
  | some m => m.files.hash
  | Option.none => hashDirectory H destFiles

/-- C10.  Import trusts the manifest hash: whenever the imported bundle
has a manifest with a files hash, the stored challenge's `files_hash` is
that value verbatim and `hashDirectory` is not re-run; consequently a
manifest whose hash field is not even a `sha256:`-prefixed digest is
stored although it differs from `hashDirectory` of the stored tree, for
every digest function. -/
theorem import_trusts_manifest_hash (H : Bytes → String) :
    (∀ (m : Manifest) (tree : List FileEntry),
      importFilesHash (some m) H tree = m.files.hash) ∧
    importFilesHash (some ⟨⟨"not-a-hash"⟩⟩) H [] ≠ hashDirectory H [] := by
  refine ⟨fun _ _ => rfl, ?_⟩
  intro h
  rw [importFilesHash, hashDirectory] at h
  exact append_ne_of_mismatch "sha256:" _ "not-a-hash" 0 (by decide)
    (by decide) h.symm

/-- Witness for C10: an imported manifest hash is stored verbatim. -/
theorem import_trusts_manifest_hash_witness :
    importFilesHash (some ⟨⟨"abc"⟩⟩) unaryDigest [⟨[97], [1]⟩] = "abc" :=
  (import_trusts_manifest_hash unaryDigest).1 ⟨⟨"abc"⟩⟩ [⟨[97], [1]⟩]

end CtfAgent
